import Mathlib

/-!
# nexus-cli: tag selection, ordering, retention and layer-size accumulation

A shallow embedding of `src/main.go` (package `main` of nexus-cli):

* `filterStringsByRegex` (lines 234-262): the multi-expression regex filter;
* `getSortComparisonStrategy` (lines 471-501): the tag comparators;
* `deleteImages` (lines 362-432): validation and keep-N retention;
* `showImageInfo` (lines 299-360): the layer table and the size totals.

Go strings are embedded as Lean `String`s, Go slices as `List`s, Go `error`
values as `Option String` (`none` is `nil`), and `int64` as `Int` wrapped into
the two's-complement range.  The libraries the program calls (`regexp`,
`github.com/blang/semver`, the `registry` package) are parameters of the
embedding.
-/

set_option autoImplicit false

namespace NexusCli

/-! ## The Go standard library functions used by the filter -/

/-- Go `strings.HasPrefix(s, prefix)`. -/
def strings.HasPrefix (s pre : String) : Bool :=
  pre.data.isPrefixOf s.data

/-- Go `strings.Trim(s, cutset)`: `s` with all leading and trailing characters
contained in `cutset` removed. -/
def strings.Trim (s cutset : String) : String :=
  ⟨((s.data.dropWhile (fun c => cutset.data.contains c)).reverse.dropWhile
      (fun c => cutset.data.contains c)).reverse⟩

/-- The `regexp` package: `compile pattern` is `.error msg` when the pattern is
malformed and otherwise the match predicate of the compiled expression. -/
structure Regexp where
  compile : String → Except String (String → Bool)

/-- Go `regexp.MatchString(pattern, s)`: compiles `pattern`, fails with the
compilation error, and otherwise reports whether `s` contains a match. -/
def Regexp.MatchString (re : Regexp) (pattern s : String) : Except String Bool :=
  match re.compile pattern with
  | .error err => .error err
  | .ok m => .ok (m s)

/-! ## `filterStringsByRegex` -/

/-- Lines 242-246: the pass value of one raw expression and the pattern that is
handed to `regexp.MatchString`. -/
def expressionSetup (invert : Bool) (expression : String) : Bool × String :=
  let expressionBool := !invert
  if strings.HasPrefix expression "!" then
    (invert, strings.Trim expression "!")
  else
    (expressionBool, expression)

/-- Lines 240-255: the loop over the expressions for one tag.  The result is
`.error err` when `regexp.MatchString` fails and otherwise the final value of
`tagMiss`; the loop stops at the first expression that misses. -/
def expressionLoop (re : Regexp) (invert : Bool) (tag : String) :
    List String → Except String Bool
  | [] => .ok false
  | expression :: rest =>
    let (expressionBool, pattern) := expressionSetup invert expression
    match re.MatchString pattern tag with
    | .error err => .error err
    | .ok retVal =>
      if retVal != expressionBool then .ok true
      else expressionLoop re invert tag rest

/-- Lines 239-261: the loop over the tags, threading `retTags`. -/
def tagLoop (re : Regexp) (invert : Bool) (expressions : List String) :
    List String → List String → List String × Option String
  | [], retTags => (retTags, none)
  | tag :: rest, retTags =>
    match expressionLoop re invert tag expressions with
    | .error err => (retTags, some err)
    | .ok tagMiss =>
      tagLoop re invert expressions rest (if !tagMiss then retTags ++ [tag] else retTags)

/-- Embedding of `filterStringsByRegex(tags, expressions, invert)`; the pair is the
returned slice and the returned error. -/
def filterStringsByRegex (re : Regexp) (tags expressions : List String) (invert : Bool) :
    List String × Option String :=
  if expressions.length == 0 then (tags, none)
  else tagLoop re invert expressions tags []

/-! ## `getSortComparisonStrategy` -/

/-- Modelled from the spec: `extractNumberFromString` is called by
`getSortComparisonStrategy` but is not part of `src/main.go`.  The spec: "extract
the first maximal run of decimal digits found anywhere in each tag string (no run
found ⇒ treated as numeric value 0)". -/
def extractNumberFromString (str : String) : Int :=
  let run := (str.data.dropWhile (fun c => !c.isDigit)).takeWhile Char.isDigit
  ((run.foldl (fun acc c => acc * 10 + (c.toNat - 48)) 0 : Nat) : Int)

/-- The `github.com/blang/semver` package: `Make` parses a version (`none` on a
parse error, in which case the Go call returns the zero `Version`), `LT` is the
precedence test. -/
structure Semver where
  Version : Type
  zero : Version
  Make : String → Option Version
  LT : Version → Version → Bool

/-- Lines 475-477: the comparator built for `"default"`. -/
def numericLess (str1 str2 : String) : Bool :=
  decide (extractNumberFromString str1 < extractNumberFromString str2)

/-- Lines 481-497: the comparator built for `"semver"` (the diagnostics printed on
a parse error are not part of the result). -/
def semverLess (sv : Semver) (str1 str2 : String) : Bool :=
  if str1 == "latest" then false
  else if str2 == "latest" then true
  else
    let version1 := (sv.Make str1).getD sv.zero
    let version2 := (sv.Make str2).getD sv.zero
    sv.LT version1 version2

/-- Embedding of `getSortComparisonStrategy(sort)`; `none` is the `nil` function
value that is returned when neither `if` fires. -/
def getSortComparisonStrategy (sv : Semver) (sort : String) :
    Option (String → String → Bool) :=
  let compareStringNumber : Option (String → String → Bool) := none
  let compareStringNumber :=
    if sort == "default" then some numericLess else compareStringNumber
  let compareStringNumber :=
    if sort == "semver" then some (semverLess sv) else compareStringNumber
  compareStringNumber

/-- Lines 266-269 and 369-372: the callers replace every sort name other than
`"semver"` by `"default"` before they ask for the comparator. -/
def normalizeSort (sort : String) : String :=
  if sort != "semver" then "default" else sort

/-- Modelled from the spec: `Compare(less).Sort(tags)` is not part of `src/main.go`.
The spec: the predicate is "usable by a stable sort" and "tags are sorted ascending
by the chosen predicate".  Each element is inserted in front of the first element
that is strictly greater, which keeps equal elements in their original order. -/
def Compare.insert (less : String → String → Bool) (x : String) : List String → List String
  | [] => [x]
  | y :: ys => if less x y then x :: y :: ys else y :: Compare.insert less x ys

/-- Modelled from the spec: stable ascending insertion sort, see `Compare.insert`. -/
def Compare.Sort (less : String → String → Bool) (tags : List String) : List String :=
  tags.foldl (fun sorted x => Compare.insert less x sorted) []

/-! ## The registry collaborator -/

/-- A config or layer descriptor of a manifest: only the digest and the `int64` size
are read by the program. -/
structure Blob where
  Digest : String
  Size : Int

/-- The manifest returned by `ImageManifest`: a config blob and the layer blobs. -/
structure Manifest where
  Config : Blob
  Layers : List Blob

/-- The `registry` package as seen by `main.go`: the error of `NewRegistry` (if any)
and the three calls made on the registry. -/
structure Registry where
  NewRegistry : Option String
  ListTagsByImage : String → List String × Option String
  ImageManifest : String → String → Except String Manifest
  DeleteImageByTag : String → String → Option String

/-! ## `deleteImages` -/

/-- The values `deleteImages` reads from the `cli.Context`: `c.String("name")`,
`c.String("tag")`, `c.Int("keep")`, `c.IsSet("keep")`, `c.Bool("invert")`,
`c.String("sort")` and `c.StringSlice("expression")`. -/
structure DeleteContext where
  name : String
  tag : String
  keep : Int
  keepIsSet : Bool
  invert : Bool
  sort : String
  expression : List String

/-- What a run of `deleteImages` does: the returned error and the
`DeleteImageByTag(name, tag)` calls it issued, in order. -/
structure DeleteResult where
  err : Option String
  deleted : List (String × String)

/-- Lines 421-427: the deletion loop; it stops at the first failing delete. -/
def deleteLoop (r : Registry) (imgName : String) :
    List String → List (String × String) → DeleteResult
  | [], calls => ⟨none, calls⟩
  | tag :: rest, calls =>
    match r.DeleteImageByTag imgName tag with
    | some err => ⟨some err, calls ++ [(imgName, tag)]⟩
    | none => deleteLoop r imgName rest (calls ++ [(imgName, tag)])

/-- Embedding of `deleteImages(c)`.  `sortTags` stands for `Compare(less).Sort(tags)`,
which is not part of `src/main.go`.  The result is `none` where the Go program has no
defined result in this embedding: calling a `nil` comparator, or slicing
`tags[:len(tags)-keep]` beyond the length of `tags` (negative `keep`).  The error
returned by `ListTagsByImage` is overwritten on line 396 without being read, and the
test of `err` on line 417 cannot fire, `err` being `nil` after line 397. -/
def deleteImages (re : Regexp) (sv : Semver)
    (sortTags : (String → String → Bool) → List String → List String)
    (r : Registry) (c : DeleteContext) : Option DeleteResult :=
  let imgName := c.name
  let tag := c.tag
  let keep := c.keep
  let invert := c.invert
  let sort := normalizeSort c.sort
  if imgName == "" then some ⟨none, []⟩
  else
    match r.NewRegistry with
    | some err => some ⟨some err, []⟩
    | none =>
      if tag != "" then
        some ⟨r.DeleteImageByTag imgName tag, [(imgName, tag)]⟩
      else
        let tags := (r.ListTagsByImage imgName).1
        let (tags, err) := filterStringsByRegex re tags c.expression invert
        match err with
        | some e => some ⟨some e, []⟩
        | none =>
          if c.keepIsSet == false && c.expression.length == 0 then
            some ⟨some ("You should either specify use tag / filter expressions, " ++
              "or specify how many images you want to keep"), []⟩
          else if tags.length == 0 && !c.keepIsSet then
            some ⟨some "No images selected for deletion", []⟩
          else
            match getSortComparisonStrategy sv sort with
            | none => none
            | some compareStringNumber =>
              let tags := sortTags compareStringNumber tags
              if (tags.length : Int) ≥ keep then
                if keep < 0 then none
                else deleteLoop r imgName (tags.take (tags.length - keep.toNat)) []
              else some ⟨none, []⟩

/-! ## `showImageInfo` -/

/-- Go `int64` arithmetic: the representative of `x` in `[-2^63, 2^63)`. -/
def wrapInt64 (x : Int) : Int :=
  (x + 2 ^ 63) % 2 ^ 64 - 2 ^ 63

/-- The accumulators of `showImageInfo` (lines 309-310): `configSize` and the
`layers` map, kept as the list of its entries in insertion order. -/
structure InfoState where
  configSize : Int
  layers : List (String × Int)

/-- Lines 319-324: a layer is recorded only when its digest is not yet a key. -/
def layerLoop : List Blob → List (String × Int) → List (String × Int)
  | [], layers => layers
  | layer :: rest, layers =>
    match layers.lookup layer.Digest with
    | some _ => layerLoop rest layers
    | none => layerLoop rest (layers ++ [(layer.Digest, layer.Size)])

/-- Lines 313-326: the closure `handleTag`, as a function of the accumulators; the
second component is the returned error. -/
def handleTag (r : Registry) (imgName : String) (st : InfoState) (tag : String) :
    InfoState × Option String :=
  match r.ImageManifest imgName tag with
  | .error err => (st, some err)
  | .ok manifest =>
    ({ configSize := wrapInt64 (st.configSize + manifest.Config.Size),
       layers := layerLoop manifest.Layers st.layers }, none)

/-- Lines 353-356: `totalLayersSize` after ranging over the map entries in the
order `entries`. -/
def totalLayersSize (entries : List (String × Int)) : Int :=
  entries.foldl (fun total e => wrapInt64 (total + e.2)) 0

/-- Line 358: the value printed as "Total size", for the iteration order `entries`. -/
def totalSize (configSize : Int) (entries : List (String × Int)) : Int :=
  wrapInt64 (totalLayersSize entries + configSize)

/-! ## Instances of the library interfaces, for evaluating the embedding -/

/-- A small `regexp`: a pattern containing `(` is malformed, `^lit` matches the
strings that start with `lit`, any other pattern matches the strings that contain it. -/
def literalRegexp : Regexp where
  compile p :=
    if p.data.contains '(' then .error "error parsing regexp: missing closing )"
    else
      match p.data with
      | '^' :: lit => .ok (fun s => lit.isPrefixOf s.data)
      | lit => .ok (fun s => s.data.tails.any (fun t => lit.isPrefixOf t))

/-- Splits a list of characters at every `.`. -/
def splitDots : List Char → List (List Char)
  | [] => [[]]
  | c :: cs =>
    match splitDots cs with
    | [] => [[c]]
    | part :: parts => if c == '.' then [] :: part :: parts else (c :: part) :: parts

/-- Reads a non-empty string of decimal digits. -/
def readNat (cs : List Char) : Option Nat :=
  if cs.isEmpty || !cs.all Char.isDigit then none
  else some (cs.foldl (fun acc c => acc * 10 + (c.toNat - 48)) 0)

/-- A small `semver`: versions are `major.minor.patch` triples of numbers, compared
lexicographically; anything else fails to parse. -/
def tripleSemver : Semver where
  Version := Nat × Nat × Nat
  zero := (0, 0, 0)
  Make s :=
    match (splitDots s.data).map readNat with
    | [some a, some b, some c] => some (a, b, c)
    | _ => none
  LT v w := decide (v.1 < w.1) || (v.1 == w.1 && (decide (v.2.1 < w.2.1) ||
    (v.2.1 == w.2.1 && decide (v.2.2 < w.2.2))))

/-- A manifest with a config blob and three layer entries, one digest occurring twice. -/
def sampleManifest : Manifest :=
  ⟨⟨"sha256:c", 10⟩, [⟨"sha256:a", 100⟩, ⟨"sha256:b", 200⟩, ⟨"sha256:a", 100⟩]⟩

/-- A registry in which every call succeeds: every image has the tags
`v1 v2 v3 latest` and every tag has the manifest `sampleManifest`. -/
def sampleRegistry : Registry where
  NewRegistry := none
  ListTagsByImage _ := (["v1", "v2", "v3", "latest"], none)
  ImageManifest _ _ := .ok sampleManifest
  DeleteImageByTag _ _ := none

/-- The invocation `image delete -n img -e ^v -k 1`. -/
def sampleKeepOne : DeleteContext :=
  { name := "img", tag := "", keep := 1, keepIsSet := true, invert := false, sort := "",
    expression := ["^v"] }

/-- The invocation `image delete -n img -e ^x`. -/
def sampleNoKeep : DeleteContext :=
  { name := "img", tag := "", keep := 0, keepIsSet := false, invert := false, sort := "",
    expression := ["^x"] }

/-! ## The filter as the specification words it -/

/-- Specification side, `regexMatches(pattern, tag)`: whether the compiled pattern
matches the tag. -/
def regexMatches (re : Regexp) (pattern tag : String) : Bool :=
  match re.compile pattern with
  | .ok m => m tag
  | .error _ => false

/-- Specification side: the raw expression begins with the `!` marker. -/
def specNegated (e : String) : Bool :=
  e.data.head? == some '!'

/-- Specification side, `pattern(e)`: `e` without its one leading `!` marker, if it
has one; every other character is kept. -/
def specPattern (e : String) : String :=
  if specNegated e then ⟨e.data.tail⟩ else e

/-- Specification side, the pass condition of tag `t` for expression `e`:
`regexMatches(pattern(e), t) == (invert if e has a '!' prefix, NOT invert otherwise)`. -/
def specPasses (re : Regexp) (invert : Bool) (t e : String) : Bool :=
  regexMatches re (specPattern e) t == (if specNegated e then invert else !invert)

/-- The pass condition as the code evaluates it: the pattern and the pass value
come from `expressionSetup`. -/
def codePasses (re : Regexp) (invert : Bool) (t e : String) : Bool :=
  regexMatches re (expressionSetup invert e).2 t == (expressionSetup invert e).1

/-! ## Lemmas on the filter -/

theorem bang_data : "!".data = ['!'] := rfl

theorem dropWhile_of_all_false {α : Type} (p : α → Bool) :
    ∀ l : List α, (∀ x ∈ l, p x = false) → l.dropWhile p = l
  | [], _ => rfl
  | x :: xs, h => by
    have hx : p x = false := h x (List.mem_cons_self x xs)
    simp [List.dropWhile, hx]

theorem trim_bang_cons (cs : List Char) (h : '!' ∉ cs) :
    strings.Trim ⟨'!' :: cs⟩ "!" = ⟨cs⟩ := by
  have hp : ∀ x ∈ cs, (List.contains "!".data x) = false := by
    intro x hx
    rw [bang_data]
    have hne : x ≠ '!' := fun e => h (e ▸ hx)
    simp [hne]
  have hp2 : ∀ x ∈ cs.reverse, (List.contains "!".data x) = false := by
    intro x hx
    exact hp x (List.mem_reverse.mp hx)
  have h1 : List.dropWhile (fun c => List.contains "!".data c) ('!' :: cs) = cs := by
    have hb : List.contains "!".data '!' = true := by rw [bang_data]; simp
    rw [List.dropWhile_cons, if_pos hb]
    exact dropWhile_of_all_false _ cs hp
  unfold strings.Trim
  simp only [h1]
  rw [dropWhile_of_all_false _ cs.reverse hp2, List.reverse_reverse]

/-- When `e` carries no `!` apart from an optional leading one, the code computes the
specified pass value and pattern. -/
theorem expressionSetup_eq_spec (invert : Bool) (e : String) (h : '!' ∉ e.data.tail) :
    expressionSetup invert e = (if specNegated e then invert else !invert, specPattern e) := by
  obtain ⟨l⟩ := e
  cases l with
  | nil => simp [expressionSetup, strings.HasPrefix, specNegated, specPattern, bang_data]
  | cons c cs =>
    by_cases hc : c = '!'
    · subst hc
      have ht : strings.Trim ⟨'!' :: cs⟩ "!" = ⟨cs⟩ := trim_bang_cons cs (by simpa using h)
      simp [expressionSetup, strings.HasPrefix, specNegated, specPattern, bang_data, ht]
    · have hc2 : ¬ ('!' = c) := fun e => hc e.symm
      simp [expressionSetup, strings.HasPrefix, specNegated, specPattern, bang_data, hc, hc2]

/-- The pattern handed to the matcher does not depend on `invert`. -/
theorem expressionSetup_pattern (invert : Bool) (e : String) :
    (expressionSetup invert e).2 = (expressionSetup true e).2 := by
  unfold expressionSetup
  split <;> rfl

/-- When every pattern compiles the expression loop ends without error and `tagMiss`
is the negation of "all expressions pass". -/
theorem expressionLoop_of_compile (re : Regexp) (invert : Bool) (tag : String) :
    ∀ exprs : List String,
      (∀ e ∈ exprs, ∃ m, re.compile (expressionSetup invert e).2 = .ok m) →
      expressionLoop re invert tag exprs = .ok (!(exprs.all (codePasses re invert tag)))
  | [], _ => by simp [expressionLoop]
  | e :: es, h => by
    obtain ⟨m, hm⟩ := h e (List.mem_cons_self e es)
    have ih := expressionLoop_of_compile re invert tag es
      (fun e' he' => h e' (List.mem_cons_of_mem e he'))
    simp only [expressionLoop, Regexp.MatchString, hm, List.all_cons, codePasses, regexMatches]
    by_cases hp : (m tag != (expressionSetup invert e).1) = true
    · have hq : (m tag == (expressionSetup invert e).1) = false := by
        cases hmt : m tag <;> cases hx : (expressionSetup invert e).1 <;> simp_all
      simp [hp, hq]
    · have hq : (m tag == (expressionSetup invert e).1) = true := by
        cases hmt : m tag <;> cases hx : (expressionSetup invert e).1 <;> simp_all
      rw [if_neg hp, ih]
      simp [hq, codePasses, regexMatches]

/-- The tag loop when the expression loop never fails: the accumulator is extended by
the tags that do not miss, in order. -/
theorem tagLoop_of_ok (re : Regexp) (invert : Bool) (exprs : List String) (f : String → Bool) :
    ∀ (tags acc : List String),
      (∀ t ∈ tags, expressionLoop re invert t exprs = .ok (!(f t))) →
      tagLoop re invert exprs tags acc = (acc ++ tags.filter f, none)
  | [], acc, _ => by simp [tagLoop]
  | t :: ts, acc, h => by
    have ht := h t (List.mem_cons_self t ts)
    have ih := fun acc' => tagLoop_of_ok re invert exprs f ts acc'
      (fun t' ht' => h t' (List.mem_cons_of_mem t ht'))
    simp only [tagLoop, ht]
    cases hf : f t <;> simp [hf, ih, List.filter_cons]

/-- The filter when every pattern compiles. -/
theorem filter_of_compile (re : Regexp) (tags exprs : List String) (invert : Bool)
    (h : ∀ e ∈ exprs, ∃ m, re.compile (expressionSetup invert e).2 = .ok m) :
    filterStringsByRegex re tags exprs invert =
      (tags.filter (fun t => exprs.all (codePasses re invert t)), none) := by
  unfold filterStringsByRegex
  cases exprs with
  | nil => simp
  | cons e es =>
    have hl : ((e :: es).length == 0) = false := by simp
    rw [hl]
    simp only [Bool.false_eq_true, if_false]
    have := tagLoop_of_ok re invert (e :: es) (fun t => (e :: es).all (codePasses re invert t))
      tags [] (fun t _ => expressionLoop_of_compile re invert t (e :: es) h)
    simpa using this

theorem all_codePasses_eq_spec (re : Regexp) (invert : Bool) (t : String) :
    ∀ exprs : List String, (∀ e ∈ exprs, '!' ∉ e.data.tail) →
      exprs.all (codePasses re invert t) = exprs.all (specPasses re invert t)
  | [], _ => rfl
  | e :: es, h => by
    have he := expressionSetup_eq_spec invert e (h e (List.mem_cons_self e es))
    have ih := all_codePasses_eq_spec re invert t es
      (fun e' he' => h e' (List.mem_cons_of_mem e he'))
    simp only [List.all_cons, ih]
    congr 1
    simp only [codePasses, specPasses, he]

/-- With `invert` set the pass value of every expression is flipped. -/
theorem expressionSetup_flip (e : String) :
    (expressionSetup true e).1 = !(expressionSetup false e).1 := by
  unfold expressionSetup
  split <;> rfl

theorem codePasses_flip (re : Regexp) (t e : String) :
    codePasses re true t e = !(codePasses re false t e) := by
  unfold codePasses
  rw [expressionSetup_flip e, expressionSetup_pattern false e]
  cases regexMatches re (expressionSetup true e).2 t <;>
    cases (expressionSetup false e).1 <;> rfl

/-- The expression loop in front of a malformed pattern: the error surfaces exactly
when every earlier expression passes. -/
theorem expressionLoop_malformed (re : Regexp) (invert : Bool) (tag bad msg : String)
    (post : List String) (hbad : re.compile (expressionSetup invert bad).2 = .error msg) :
    ∀ pre : List String,
      (∀ e ∈ pre, ∃ m, re.compile (expressionSetup invert e).2 = .ok m) →
      expressionLoop re invert tag (pre ++ bad :: post) =
        if pre.all (codePasses re invert tag) then .error msg else .ok true
  | [], _ => by simp [expressionLoop, Regexp.MatchString, hbad]
  | e :: es, h => by
    obtain ⟨m, hm⟩ := h e (List.mem_cons_self e es)
    have ih := expressionLoop_malformed re invert tag bad msg post hbad es
      (fun e' he' => h e' (List.mem_cons_of_mem e he'))
    rw [List.cons_append]
    simp only [expressionLoop, Regexp.MatchString, hm, List.all_cons, codePasses, regexMatches]
    by_cases hp : (m tag != (expressionSetup invert e).1) = true
    · have hq : (m tag == (expressionSetup invert e).1) = false := by
        cases hmt : m tag <;> cases hx : (expressionSetup invert e).1 <;> simp_all
      simp [hp, hq]
    · have hq : (m tag == (expressionSetup invert e).1) = true := by
        cases hmt : m tag <;> cases hx : (expressionSetup invert e).1 <;> simp_all
      rw [if_neg hp, ih]
      simp [hq, codePasses, regexMatches]

/-- The tag loop in front of a malformed pattern never extends `retTags`. -/
theorem tagLoop_malformed (re : Regexp) (invert : Bool) (exprs : List String) (msg : String)
    (g : String → Bool)
    (hloop : ∀ t, expressionLoop re invert t exprs = if g t then .error msg else .ok true) :
    ∀ (tags acc : List String),
      tagLoop re invert exprs tags acc = (acc, if tags.any g then some msg else none)
  | [], acc => by simp [tagLoop]
  | t :: ts, acc => by
    have ih := tagLoop_malformed re invert exprs msg g hloop ts acc
    simp only [tagLoop, hloop t, List.any_cons]
    by_cases hg : g t = true
    · simp [hg]
    · simp [hg, ih]

/-- An expression list with a malformed pattern splits at its first malformed one. -/
theorem split_first_malformed (re : Regexp) (invert : Bool) :
    ∀ exprs : List String,
      (∃ e ∈ exprs, ∃ msg, re.compile (expressionSetup invert e).2 = .error msg) →
      ∃ pre bad post msg, exprs = pre ++ bad :: post ∧
        (∀ e ∈ pre, ∃ m, re.compile (expressionSetup invert e).2 = .ok m) ∧
        re.compile (expressionSetup invert bad).2 = .error msg
  | [], h => by
    obtain ⟨e, he, _⟩ := h
    exact absurd he (List.not_mem_nil e)
  | x :: xs, h => by
    cases hx : re.compile (expressionSetup invert x).2 with
    | error msg => exact ⟨[], x, xs, msg, rfl, by simp, hx⟩
    | ok m =>
      have hrest : ∃ e ∈ xs, ∃ msg, re.compile (expressionSetup invert e).2 = .error msg := by
        obtain ⟨e, he, msg, hmsg⟩ := h
        rcases List.mem_cons.mp he with rfl | he'
        · rw [hx] at hmsg
          cases hmsg
        · exact ⟨e, he', msg, hmsg⟩
      obtain ⟨pre, bad, post, msg, hsplit, hpre, hbad⟩ := split_first_malformed re invert xs hrest
      refine ⟨x :: pre, bad, post, msg, by simp [hsplit], ?_, hbad⟩
      intro e he
      rcases List.mem_cons.mp he with rfl | he'
      · exact ⟨m, hx⟩
      · exact hpre e he'

/-- The filter in front of a malformed pattern. -/
theorem filter_malformed (re : Regexp) (tags pre post : List String) (bad msg : String)
    (invert : Bool)
    (hpre : ∀ e ∈ pre, ∃ m, re.compile (expressionSetup invert e).2 = .ok m)
    (hbad : re.compile (expressionSetup invert bad).2 = .error msg) :
    filterStringsByRegex re tags (pre ++ bad :: post) invert =
      ([], if tags.any (fun t => pre.all (codePasses re invert t)) then some msg else none) := by
  unfold filterStringsByRegex
  have hl : ((pre ++ bad :: post).length == 0) = false := by simp
  rw [hl]
  simp only [Bool.false_eq_true, if_false]
  exact tagLoop_malformed re invert (pre ++ bad :: post) msg
    (fun t => pre.all (codePasses re invert t))
    (fun t => expressionLoop_malformed re invert t bad msg post hbad pre hpre) tags []

/-! ## Lemmas on the comparators and the sort -/

theorem semverLess_latest_left (sv : Semver) (t : String) :
    semverLess sv "latest" t = false := by
  simp [semverLess]

theorem semverLess_latest_right (sv : Semver) (t : String) (h : t ≠ "latest") :
    semverLess sv t "latest" = true := by
  simp [semverLess, h]

theorem extractNumber_latest : extractNumberFromString "latest" = 0 := by decide

theorem extractNumber_nonneg (t : String) : 0 ≤ extractNumberFromString t := by
  unfold extractNumberFromString
  exact Int.ofNat_nonneg _

theorem getSort_semver (sv : Semver) :
    getSortComparisonStrategy sv "semver" = some (semverLess sv) := by
  simp [getSortComparisonStrategy]

theorem getSort_default (sv : Semver) :
    getSortComparisonStrategy sv "default" = some numericLess := by
  have h : ("default" == "semver") = false := by decide
  simp [getSortComparisonStrategy, h]

theorem normalizeSort_of_ne (sort : String) (h : sort ≠ "semver") :
    normalizeSort sort = "default" := by
  simp [normalizeSort, h]

theorem insert_latest (sv : Semver) :
    ∀ l : List String, Compare.insert (semverLess sv) "latest" l = l ++ ["latest"]
  | [] => rfl
  | y :: ys => by
    simp [Compare.insert, semverLess_latest_left, insert_latest sv ys]

theorem insert_before_latest (sv : Semver) (x : String) (hx : x ≠ "latest") :
    ∀ init : List String,
      Compare.insert (semverLess sv) x (init ++ ["latest"]) =
        Compare.insert (semverLess sv) x init ++ ["latest"]
  | [] => by simp [Compare.insert, semverLess_latest_right sv x hx]
  | y :: ys => by
    simp only [List.cons_append, Compare.insert, List.append_eq]
    split
    · rfl
    · rw [insert_before_latest sv x hx ys]
      rfl

theorem sort_loop_latest (sv : Semver) :
    ∀ (tags acc : List String),
      ((∃ init, acc = init ++ ["latest"]) ∨ "latest" ∈ tags) →
      ∃ init, tags.foldl (fun sorted x => Compare.insert (semverLess sv) x sorted) acc =
        init ++ ["latest"]
  | [], acc, h => by
    rcases h with h | h
    · simpa using h
    · exact absurd h (List.not_mem_nil _)
  | x :: xs, acc, h => by
    simp only [List.foldl_cons]
    apply sort_loop_latest sv xs
    by_cases hx : x = "latest"
    · left
      subst hx
      exact ⟨acc, insert_latest sv acc⟩
    · rcases h with ⟨init, hinit⟩ | h
      · left
        subst hinit
        exact ⟨_, insert_before_latest sv x hx init⟩
      · right
        rcases List.mem_cons.mp h with h | h
        · exact absurd h.symm hx
        · exact h

theorem sort_semver_latest_last (sv : Semver) (tags : List String) (h : "latest" ∈ tags) :
    (Compare.Sort (semverLess sv) tags).getLast? = some "latest" := by
  obtain ⟨init, hinit⟩ := sort_loop_latest sv tags [] (Or.inr h)
  unfold Compare.Sort
  rw [hinit]
  simp

theorem ascending_latest_last (sv : Semver) (out : List String) (h : "latest" ∈ out)
    (hasc : out.Pairwise (fun a b => semverLess sv b a = false)) :
    out.getLast? = some "latest" := by
  induction out using List.reverseRecOn with
  | nil => exact absurd h (List.not_mem_nil _)
  | append_singleton init last _ =>
    have hlast : (init ++ [last]).getLast? = some last := by simp
    rw [hlast, Option.some.injEq]
    by_contra hne
    have hin : "latest" ∈ init := by
      rcases List.mem_append.mp h with h | h
      · exact h
      · exact absurd (List.mem_singleton.mp h).symm hne
    have := (List.pairwise_append.mp hasc).2.2 "latest" hin last (List.mem_singleton_self last)
    rw [semverLess_latest_right sv last hne] at this
    cases this

/-! ## Lemmas on `showImageInfo` and `deleteImages` -/

theorem wrapInt64_add_left (a b : Int) : wrapInt64 (wrapInt64 a + b) = wrapInt64 (a + b) := by
  unfold wrapInt64
  omega

theorem wrapInt64_of_inRange (x : Int) (h : -2 ^ 63 ≤ x ∧ x < 2 ^ 63) : wrapInt64 x = x := by
  unfold wrapInt64
  omega

theorem lookup_append_of_some (d : String) (v : Int) (l l' : List (String × Int))
    (h : l.lookup d = some v) : (l ++ l').lookup d = some v := by
  rw [List.lookup_append, h]
  rfl

theorem layerLoop_keeps (d : String) (v : Int) :
    ∀ (bs : List Blob) (layers : List (String × Int)),
      layers.lookup d = some v → (layerLoop bs layers).lookup d = some v
  | [], _, h => h
  | b :: bs, layers, h => by
    unfold layerLoop
    split
    · exact layerLoop_keeps d v bs layers h
    · exact layerLoop_keeps d v bs _ (lookup_append_of_some d v layers _ h)

theorem lookup_append_self (d : String) (v : Int) (l : List (String × Int))
    (h : l.lookup d = none) : (l ++ [(d, v)]).lookup d = some v := by
  rw [List.lookup_append, h]
  simp [List.lookup]

theorem layerLoop_records :
    ∀ (bs : List Blob) (layers : List (String × Int)),
      ∀ b ∈ bs, ∃ v, (layerLoop bs layers).lookup b.Digest = some v
  | [], _, b, hb => absurd hb (List.not_mem_nil b)
  | x :: xs, layers, b, hb => by
    unfold layerLoop
    rcases List.mem_cons.mp hb with rfl | hb'
    · split
      · rename_i v hv
        exact ⟨v, layerLoop_keeps _ v xs layers hv⟩
      · rename_i hv
        exact ⟨b.Size, layerLoop_keeps _ _ xs _ (lookup_append_self b.Digest b.Size layers hv)⟩
    · split
      · exact layerLoop_records xs layers b hb'
      · exact layerLoop_records xs _ b hb'

theorem layerLoop_of_present :
    ∀ (bs : List Blob) (layers : List (String × Int)),
      (∀ b ∈ bs, ∃ v, layers.lookup b.Digest = some v) → layerLoop bs layers = layers
  | [], _, _ => rfl
  | x :: xs, layers, h => by
    obtain ⟨v, hv⟩ := h x (List.mem_cons_self x xs)
    unfold layerLoop
    rw [hv]
    exact layerLoop_of_present xs layers (fun b hb => h b (List.mem_cons_of_mem x hb))

theorem layerLoop_idem (bs : List Blob) (layers : List (String × Int)) :
    layerLoop bs (layerLoop bs layers) = layerLoop bs layers :=
  layerLoop_of_present bs _ (layerLoop_records bs layers)

theorem totalLayersSize_perm (o1 o2 : List (String × Int)) (h : o1.Perm o2) :
    totalLayersSize o1 = totalLayersSize o2 := by
  unfold totalLayersSize
  apply h.foldl_eq'
  intro x _ y _ z
  simp only [wrapInt64_add_left]
  congr 1
  omega

theorem getSort_normalized (sv : Semver) (sort : String) :
    ∃ less, getSortComparisonStrategy sv (normalizeSort sort) = some less := by
  by_cases h : sort = "semver"
  · subst h
    exact ⟨semverLess sv, by simp [normalizeSort, getSort_semver]⟩
  · exact ⟨numericLess, by rw [normalizeSort_of_ne sort h, getSort_default]⟩

theorem deleteLoop_all_succeed (r : Registry) (imgName : String)
    (hdel : ∀ t, r.DeleteImageByTag imgName t = none) :
    ∀ (tags : List String) (calls : List (String × String)),
      deleteLoop r imgName tags calls = ⟨none, calls ++ tags.map (fun t => (imgName, t))⟩
  | [], calls => by simp [deleteLoop]
  | t :: ts, calls => by
    simp [deleteLoop, hdel t, deleteLoop_all_succeed r imgName hdel ts]

/-! ## Claims on the filter -/

/-- C3: when every expression carries no `!` besides an optional leading one and every
pattern compiles, `filterStringsByRegex` returns, without error, exactly the tags (in
input order) for which every expression satisfies
`regexMatches(pattern(e), t) == (invert if e is negated, NOT invert otherwise)`; with
no expressions it returns the tags unchanged, whatever `invert` is. -/
theorem filterStringsByRegex_conjunction (re : Regexp) (tags exprs : List String)
    (invert : Bool)
    (hbang : ∀ e ∈ exprs, '!' ∉ e.data.tail)
    (hcompile : ∀ e ∈ exprs, ∃ m, re.compile (specPattern e) = .ok m) :
    filterStringsByRegex re tags exprs invert =
        (tags.filter (fun t => exprs.all (specPasses re invert t)), none) ∧
      filterStringsByRegex re tags [] invert = (tags, none) := by
  constructor
  · have hc : ∀ e ∈ exprs, ∃ m, re.compile (expressionSetup invert e).2 = .ok m := by
      intro e he
      rw [expressionSetup_eq_spec invert e (hbang e he)]
      exact hcompile e he
    rw [filter_of_compile re tags exprs invert hc]
    congr 1
    apply List.filter_congr
    intro t _
    exact all_codePasses_eq_spec re invert t exprs hbang
  · simp [filterStringsByRegex]

/-- Witness for C3: tags `v1 v2 v3 latest`, expressions `^v` and `!2`. -/
theorem filterStringsByRegex_conjunction_witness :
    filterStringsByRegex literalRegexp ["v1", "v2", "v3", "latest"] ["^v", "!2"] false =
        (["v1", "v2", "v3", "latest"].filter
          (fun t => ["^v", "!2"].all (specPasses literalRegexp false t)), none) ∧
      filterStringsByRegex literalRegexp ["v1", "v2", "v3", "latest"] [] false =
        (["v1", "v2", "v3", "latest"], none) :=
  filterStringsByRegex_conjunction literalRegexp ["v1", "v2", "v3", "latest"] ["^v", "!2"] false
    (by decide)
    (by
      intro e he
      simp only [List.mem_cons, List.mem_singleton, List.not_mem_nil, or_false] at he
      rcases he with rfl | rfl
      · exact ⟨_, rfl⟩
      · exact ⟨_, rfl⟩)

/-- C7: for a single expression whose pattern compiles, both calls succeed, the result
with `invert = true` is the complement within `tags` of the result with
`invert = false` (every element of `tags` is in exactly one of them), and both results
are order-preserving sublists of `tags`. -/
theorem filterStringsByRegex_invert_complement (re : Regexp) (tags : List String)
    (e : String) (hcompile : ∃ m, re.compile (expressionSetup false e).2 = .ok m) :
    (filterStringsByRegex re tags [e] false).2 = none ∧
      (filterStringsByRegex re tags [e] true).2 = none ∧
      (∃ q : String → Bool,
        (filterStringsByRegex re tags [e] false).1 = tags.filter q ∧
        (filterStringsByRegex re tags [e] true).1 = tags.filter (fun t => !(q t))) ∧
      (∀ t ∈ tags, (t ∈ (filterStringsByRegex re tags [e] false).1 ∧
            t ∉ (filterStringsByRegex re tags [e] true).1) ∨
          (t ∉ (filterStringsByRegex re tags [e] false).1 ∧
            t ∈ (filterStringsByRegex re tags [e] true).1)) ∧
      (filterStringsByRegex re tags [e] false).1.Sublist tags ∧
      (filterStringsByRegex re tags [e] true).1.Sublist tags := by
  have hf : ∀ e' ∈ [e], ∃ m, re.compile (expressionSetup false e').2 = .ok m := by
    intro e' he'
    rw [List.mem_singleton.mp he']
    exact hcompile
  have ht : ∀ e' ∈ [e], ∃ m, re.compile (expressionSetup true e').2 = .ok m := by
    intro e' he'
    rw [List.mem_singleton.mp he', ← expressionSetup_pattern false e]
    exact hcompile
  rw [filter_of_compile re tags [e] false hf, filter_of_compile re tags [e] true ht]
  have hflip : (fun t => [e].all (codePasses re true t)) =
      (fun t => !([e].all (codePasses re false t))) := by
    funext t
    simp [codePasses_flip]
  rw [hflip]
  refine ⟨rfl, rfl, ⟨_, rfl, rfl⟩, ?_, List.filter_sublist _, List.filter_sublist _⟩
  intro t ht
  simp only [List.mem_filter, ht, true_and]
  cases [e].all (codePasses re false t) <;> simp

/-- Witness for C7: the expression `^v` on tags `v1 latest v2`. -/
theorem filterStringsByRegex_invert_complement_witness :
    (filterStringsByRegex literalRegexp ["v1", "latest", "v2"] ["^v"] false).2 = none ∧
      (filterStringsByRegex literalRegexp ["v1", "latest", "v2"] ["^v"] true).2 = none ∧
      (∃ q : String → Bool,
        (filterStringsByRegex literalRegexp ["v1", "latest", "v2"] ["^v"] false).1 =
          ["v1", "latest", "v2"].filter q ∧
        (filterStringsByRegex literalRegexp ["v1", "latest", "v2"] ["^v"] true).1 =
          ["v1", "latest", "v2"].filter (fun t => !(q t))) ∧
      (∀ t ∈ ["v1", "latest", "v2"],
        (t ∈ (filterStringsByRegex literalRegexp ["v1", "latest", "v2"] ["^v"] false).1 ∧
            t ∉ (filterStringsByRegex literalRegexp ["v1", "latest", "v2"] ["^v"] true).1) ∨
          (t ∉ (filterStringsByRegex literalRegexp ["v1", "latest", "v2"] ["^v"] false).1 ∧
            t ∈ (filterStringsByRegex literalRegexp ["v1", "latest", "v2"] ["^v"] true).1)) ∧
      (filterStringsByRegex literalRegexp ["v1", "latest", "v2"] ["^v"] false).1.Sublist
        ["v1", "latest", "v2"] ∧
      (filterStringsByRegex literalRegexp ["v1", "latest", "v2"] ["^v"] true).1.Sublist
        ["v1", "latest", "v2"] :=
  filterStringsByRegex_invert_complement literalRegexp ["v1", "latest", "v2"] "^v" ⟨_, rfl⟩

/-- C4 fails as stated: with the malformed pattern `(` in the expression list the call
returns no error when there is no tag, and when the only tag already misses the
earlier expression `^v`. -/
theorem filterStringsByRegex_malformed_without_error :
    (∃ msg, literalRegexp.compile (expressionSetup false "(").2 = .error msg) ∧
      filterStringsByRegex literalRegexp [] ["("] false = ([], none) ∧
      filterStringsByRegex literalRegexp ["latest"] ["^v", "("] false = ([], none) :=
  ⟨⟨_, rfl⟩, by decide, by decide⟩

/-- C4 as amended: when some pattern fails to compile the returned tag list is always
empty, and the call fails, with the error of the first malformed expression, exactly
when some tag passes every expression in front of that expression; otherwise it
returns the empty list without error. -/
theorem filterStringsByRegex_malformed (re : Regexp) (tags exprs : List String)
    (invert : Bool)
    (h : ∃ e ∈ exprs, ∃ msg, re.compile (expressionSetup invert e).2 = .error msg) :
    (filterStringsByRegex re tags exprs invert).1 = [] ∧
      ∃ pre bad post msg, exprs = pre ++ bad :: post ∧
        (∀ e ∈ pre, ∃ m, re.compile (expressionSetup invert e).2 = .ok m) ∧
        re.compile (expressionSetup invert bad).2 = .error msg ∧
        (filterStringsByRegex re tags exprs invert).2 =
          if tags.any (fun t => pre.all (codePasses re invert t)) then some msg else none := by
  obtain ⟨pre, bad, post, msg, hsplit, hpre, hbad⟩ := split_first_malformed re invert exprs h
  have hres := filter_malformed re tags pre post bad msg invert hpre hbad
  rw [← hsplit] at hres
  exact ⟨by rw [hres], pre, bad, post, msg, hsplit, hpre, hbad, by rw [hres]⟩

/-- Witness for the amended C4: tags `v1 latest`, expressions `^v` and `(`. -/
theorem filterStringsByRegex_malformed_witness :
    (filterStringsByRegex literalRegexp ["v1", "latest"] ["^v", "("] false).1 = [] ∧
      ∃ pre bad post msg, ["^v", "("] = pre ++ bad :: post ∧
        (∀ e ∈ pre, ∃ m, literalRegexp.compile (expressionSetup false e).2 = .ok m) ∧
        literalRegexp.compile (expressionSetup false bad).2 = .error msg ∧
        (filterStringsByRegex literalRegexp ["v1", "latest"] ["^v", "("] false).2 =
          if ["v1", "latest"].any (fun t => pre.all (codePasses literalRegexp false t))
          then some msg else none :=
  filterStringsByRegex_malformed literalRegexp ["v1", "latest"] ["^v", "("] false
    ⟨"(", by decide, _, rfl⟩

/-- C9, the code at the failing inputs: for `!a!` and `!!a` the pattern handed to the
matcher is `a`, because `strings.Trim` removes every leading and trailing `!`; the
specified pattern keeps the later `!` (`a!` and `!a`). -/
theorem expressionSetup_trims_every_bang (invert : Bool) :
    expressionSetup invert "!a!" = (invert, "a") ∧
      expressionSetup invert "!!a" = (invert, "a") ∧
      specPattern "!a!" = "a!" ∧ specPattern "!!a" = "!a" := by
  cases invert <;> decide

/-! ## Claims on the comparators -/

/-- C5 fails as stated: under the numeric strategy `latest` has no digits, so its value
is 0; `v1` is not less than `latest`, `latest` is less than `v1`, and the ascending
sort puts `latest` first. -/
theorem numeric_latest_not_last :
    getSortComparisonStrategy tripleSemver "default" = some numericLess ∧
      "v1" ≠ "latest" ∧
      numericLess "v1" "latest" = false ∧
      numericLess "latest" "v1" = true ∧
      Compare.Sort numericLess ["v1", "latest", "v2"] = ["latest", "v1", "v2"] :=
  ⟨getSort_default tripleSemver, by decide, by decide, by decide, by decide⟩

/-- C5 as amended: the comparator built for `semver` orders `latest` after every other
tag; the comparator built for `default` gives `latest` the value 0, so no tag is less
than `latest`, and `latest` is less than exactly the tags with a positive number. -/
theorem latest_order_by_strategy (sv : Semver) :
    (getSortComparisonStrategy sv "semver" = some (semverLess sv) ∧
      ∀ t, t ≠ "latest" →
        semverLess sv t "latest" = true ∧ semverLess sv "latest" t = false) ∧
    (getSortComparisonStrategy sv "default" = some numericLess ∧
      ∀ t, numericLess t "latest" = false ∧
        (numericLess "latest" t = true ↔ 0 < extractNumberFromString t)) := by
  refine ⟨⟨getSort_semver sv, fun t ht =>
    ⟨semverLess_latest_right sv t ht, semverLess_latest_left sv t⟩⟩, getSort_default sv, ?_⟩
  intro t
  have h0 := extractNumber_nonneg t
  constructor
  · simp only [numericLess, extractNumber_latest, decide_eq_false_iff_not]
    exact not_lt.mpr h0
  · simp only [numericLess, extractNumber_latest, decide_eq_true_eq]

/-- Witness for the amended C5: the tag `v1` under both strategies. -/
theorem latest_order_by_strategy_witness :
    (semverLess tripleSemver "v1" "latest" = true ∧
        semverLess tripleSemver "latest" "v1" = false) ∧
      (numericLess "v1" "latest" = false ∧
        (numericLess "latest" "v1" = true ↔ 0 < extractNumberFromString "v1")) :=
  ⟨(latest_order_by_strategy tripleSemver).1.2 "v1" (by decide),
    (latest_order_by_strategy tripleSemver).2.2 "v1"⟩

/-- C8: for every sort name other than `semver` (the empty and unrecognised names
included) the comparator the callers obtain, after their normalisation of the name,
is the numeric comparator, the same non-nil function as for `default`. -/
theorem comparator_defaults_to_numeric (sv : Semver) (sort : String) (h : sort ≠ "semver") :
    getSortComparisonStrategy sv (normalizeSort sort) = some numericLess ∧
      getSortComparisonStrategy sv (normalizeSort sort) =
        getSortComparisonStrategy sv "default" := by
  rw [normalizeSort_of_ne sort h, getSort_default]
  exact ⟨rfl, rfl⟩

/-- Witness for C8: the unrecognised name `newest`. -/
theorem comparator_defaults_to_numeric_witness :
    getSortComparisonStrategy tripleSemver (normalizeSort "newest") = some numericLess ∧
      getSortComparisonStrategy tripleSemver (normalizeSort "newest") =
        getSortComparisonStrategy tripleSemver "default" :=
  comparator_defaults_to_numeric tripleSemver "newest" (by decide)

/-- C6: the comparator built for `semver` has `t < latest` and not `latest < t` for
every other tag `t`, parseable or not, and not `latest < latest`; hence for every
permutation of `1.2.0, latest, 1.3.0` the stable ascending sort, and every ascending
arrangement, ends with `latest`, and the sort gives `1.2.0, 1.3.0, latest` when the
semver library orders 1.2.0 before 1.3.0. -/
theorem semver_latest_pinned (sv : Semver) :
    getSortComparisonStrategy sv "semver" = some (semverLess sv) ∧
      (∀ t, t ≠ "latest" →
        semverLess sv t "latest" = true ∧ semverLess sv "latest" t = false) ∧
      semverLess sv "latest" "latest" = false ∧
      (∀ p : List String, p.Perm ["1.2.0", "latest", "1.3.0"] →
        (Compare.Sort (semverLess sv) p).getLast? = some "latest" ∧
        (∀ out : List String, out.Perm p →
          out.Pairwise (fun a b => semverLess sv b a = false) →
          out.getLast? = some "latest") ∧
        (sv.LT ((sv.Make "1.2.0").getD sv.zero) ((sv.Make "1.3.0").getD sv.zero) = true →
          sv.LT ((sv.Make "1.3.0").getD sv.zero) ((sv.Make "1.2.0").getD sv.zero) = false →
          Compare.Sort (semverLess sv) p = ["1.2.0", "1.3.0", "latest"])) := by
  refine ⟨getSort_semver sv, fun t ht =>
    ⟨semverLess_latest_right sv t ht, semverLess_latest_left sv t⟩,
    semverLess_latest_left sv "latest", ?_⟩
  intro p hp
  have hmem : "latest" ∈ p := hp.mem_iff.mpr (by simp)
  refine ⟨sort_semver_latest_last sv p hmem, ?_, ?_⟩
  · intro out hout hasc
    exact ascending_latest_last sv out (hout.mem_iff.mpr hmem) hasc
  · intro hlt hgt
    have e1 : ("1.2.0" == "latest") = false := by decide
    have e2 : ("1.3.0" == "latest") = false := by decide
    have l12 : semverLess sv "1.2.0" "1.3.0" = true := by simp [semverLess, e1, e2, hlt]
    have l21 : semverLess sv "1.3.0" "1.2.0" = false := by simp [semverLess, e1, e2, hgt]
    have a1 := semverLess_latest_right sv "1.2.0" (by decide)
    have a2 := semverLess_latest_right sv "1.3.0" (by decide)
    have b1 := semverLess_latest_left sv "1.2.0"
    have b2 := semverLess_latest_left sv "1.3.0"
    rw [← List.mem_permutations] at hp
    simp only [List.permutations, List.permutationsAux, List.permutationsAux.rec,
      List.permutationsAux2, List.foldr, List.map, id, List.append, List.mem_cons,
      List.mem_singleton, List.not_mem_nil, or_false] at hp
    rcases hp with rfl | rfl | rfl | rfl | rfl | rfl <;>
      simp [Compare.Sort, Compare.insert, l12, l21, a1, a2, b1, b2]

/-- Witness for C6: the tag `1.2.0` and the input order `1.3.0, latest, 1.2.0`. -/
theorem semver_latest_pinned_witness :
    (semverLess tripleSemver "1.2.0" "latest" = true ∧
        semverLess tripleSemver "latest" "1.2.0" = false) ∧
      Compare.Sort (semverLess tripleSemver) ["1.3.0", "latest", "1.2.0"] =
        ["1.2.0", "1.3.0", "latest"] :=
  ⟨(semver_latest_pinned tripleSemver).2.1 "1.2.0" (by decide),
    ((semver_latest_pinned tripleSemver).2.2.2 ["1.3.0", "latest", "1.2.0"]
      (by decide)).2.2 (by decide) (by decide)⟩

/-! ## Claims on `deleteImages` -/

/-- C1: in `deleteImages` with an image name, no specific tag, a reachable registry,
passed validation, `keep = k ≥ 0` and succeeding deletes, for the sorted tag list
`sorted` of length `n`: if `k ≤ n` the run ends without error and the tags handed to
`DeleteImageByTag` are exactly the first `n - k` elements of `sorted`, in order, the
remaining `k` trailing elements being left alone; if `k > n` nothing is deleted. -/
theorem deleteImages_retention (re : Regexp) (sv : Semver)
    (sortTags : (String → String → Bool) → List String → List String)
    (r : Registry) (c : DeleteContext) (filtered sorted : List String)
    (less : String → String → Bool)
    (hname : c.name ≠ "") (htag : c.tag = "") (hreg : r.NewRegistry = none)
    (hfilter : filterStringsByRegex re (r.ListTagsByImage c.name).1 c.expression c.invert =
      (filtered, none))
    (hcrit : c.keepIsSet = true ∨ c.expression ≠ [])
    (hsel : filtered ≠ [] ∨ c.keepIsSet = true)
    (hless : getSortComparisonStrategy sv (normalizeSort c.sort) = some less)
    (hsorted : sortTags less filtered = sorted)
    (hkeep : 0 ≤ c.keep)
    (hdel : ∀ t, r.DeleteImageByTag c.name t = none) :
    (c.keep ≤ sorted.length →
        deleteImages re sv sortTags r c = some ⟨none,
          (sorted.take (sorted.length - c.keep.toNat)).map (fun t => (c.name, t))⟩ ∧
        sorted.take (sorted.length - c.keep.toNat) ++
          sorted.drop (sorted.length - c.keep.toNat) = sorted ∧
        ((sorted.drop (sorted.length - c.keep.toNat)).length : Int) = c.keep) ∧
      ((sorted.length : Int) < c.keep →
        deleteImages re sv sortTags r c = some ⟨none, []⟩) := by
  have h1 : (c.name == "") = false := by simpa using hname
  have h2 : (c.tag != "") = false := by simp [htag]
  have h3 : (c.keepIsSet == false && c.expression.length == 0) = false := by
    rcases hcrit with h | h
    · simp [h]
    · simp [h]
  have h4 : (filtered.length == 0 && !c.keepIsSet) = false := by
    rcases hsel with h | h
    · simp [h]
    · simp [h]
  constructor
  · intro hle
    have h5 : ¬ (c.keep < 0) := not_lt.mpr hkeep
    refine ⟨?_, List.take_append_drop _ _, ?_⟩
    · unfold deleteImages
      simp only [h1, h2, hreg, hfilter, h3, h4, hless, hsorted, hle, h5, ge_iff_le, if_true,
        if_false, Bool.false_eq_true]
      rw [deleteLoop_all_succeed r c.name hdel]
      simp
    · rw [List.length_drop]
      omega
  · intro hlt
    have h5 : ¬ (c.keep ≤ (sorted.length : Int)) := not_le.mpr hlt
    unfold deleteImages
    simp only [h1, h2, hreg, hfilter, h3, h4, hless, hsorted, h5, ge_iff_le, if_false,
      Bool.false_eq_true]

/-- Witness for C1: the spec's end-to-end scenario, tags `v1 v2 v3 latest`, expression
`^v`, default sort and `keep = 1`. -/
theorem deleteImages_retention_witness :
    (sampleKeepOne.keep ≤ (["v1", "v2", "v3"] : List String).length →
        deleteImages literalRegexp tripleSemver Compare.Sort sampleRegistry sampleKeepOne =
          some ⟨none, ((["v1", "v2", "v3"] : List String).take
            ((["v1", "v2", "v3"] : List String).length - sampleKeepOne.keep.toNat)).map
              (fun t => (sampleKeepOne.name, t))⟩ ∧
        (["v1", "v2", "v3"] : List String).take
            ((["v1", "v2", "v3"] : List String).length - sampleKeepOne.keep.toNat) ++
          (["v1", "v2", "v3"] : List String).drop
            ((["v1", "v2", "v3"] : List String).length - sampleKeepOne.keep.toNat) =
              ["v1", "v2", "v3"] ∧
        (((["v1", "v2", "v3"] : List String).drop
          ((["v1", "v2", "v3"] : List String).length - sampleKeepOne.keep.toNat)).length : Int) =
            sampleKeepOne.keep) ∧
      (((["v1", "v2", "v3"] : List String).length : Int) < sampleKeepOne.keep →
        deleteImages literalRegexp tripleSemver Compare.Sort sampleRegistry sampleKeepOne =
          some ⟨none, []⟩) :=
  deleteImages_retention literalRegexp tripleSemver Compare.Sort sampleRegistry sampleKeepOne
    ["v1", "v2", "v3"] ["v1", "v2", "v3"] numericLess (by decide) rfl rfl (by decide)
    (by decide) (by decide) (getSort_default tripleSemver) (by decide) (by decide)
    (fun _ => rfl)

/-- C2: in `deleteImages` with an image name and no specific tag, when `keep` was not
set and either no filter expression was supplied or the filter returns no tag, the
command returns an error and issues no `DeleteImageByTag` call, whatever tags the
registry lists. -/
theorem deleteImages_requires_selection (re : Regexp) (sv : Semver)
    (sortTags : (String → String → Bool) → List String → List String)
    (r : Registry) (c : DeleteContext)
    (hname : c.name ≠ "") (htag : c.tag = "") (hkeep : c.keepIsSet = false)
    (h : c.expression = [] ∨
      (filterStringsByRegex re (r.ListTagsByImage c.name).1 c.expression c.invert).1 = []) :
    ∃ msg, deleteImages re sv sortTags r c = some ⟨some msg, []⟩ := by
  have h1 : (c.name == "") = false := by simpa using hname
  have h2 : (c.tag != "") = false := by simp [htag]
  unfold deleteImages
  simp only [h1, h2, if_false, Bool.false_eq_true]
  cases r.NewRegistry with
  | some err => exact ⟨err, rfl⟩
  | none =>
    simp only
    rcases hres : filterStringsByRegex re (r.ListTagsByImage c.name).1 c.expression c.invert
      with ⟨tags, err⟩
    rw [hres] at h
    cases err with
    | some e => exact ⟨e, rfl⟩
    | none =>
      simp only [hkeep]
      rcases h with h | h
      · simp [h]
      · simp only at h
        subst h
        by_cases he : c.expression.length = 0
        · simp [he]
        · simp [he]

/-- Witness for C2: the expression `^x` selects none of `v1 v2 v3 latest` and `keep` is
not set. -/
theorem deleteImages_requires_selection_witness :
    ∃ msg, deleteImages literalRegexp tripleSemver Compare.Sort sampleRegistry
      sampleNoKeep = some ⟨some msg, []⟩ :=
  deleteImages_requires_selection literalRegexp tripleSemver Compare.Sort sampleRegistry
    sampleNoKeep (by decide) rfl rfl (Or.inr (by decide))

/-! ## Claim on `showImageInfo` -/

/-- C10: processing a manifest `m` a second time leaves the layer table as it is after
the first time, hence also the total layers size (for any iteration order of the map);
a digest already in the table keeps its recorded size; each processing adds the
config size of `m` to `configSize` in `int64` arithmetic (the exact sum while it stays
in the `int64` range), so that from a fresh state the second value is twice the
first; and the grand total is the total layers size plus `configSize`. -/
theorem handleTag_twice (r : Registry) (imgName tag : String) (m : Manifest) (st : InfoState)
    (hm : r.ImageManifest imgName tag = .ok m) :
    ((handleTag r imgName (handleTag r imgName st tag).1 tag).1.layers =
        (handleTag r imgName st tag).1.layers) ∧
      (∀ o1 o2 : List (String × Int),
        o1.Perm (handleTag r imgName st tag).1.layers →
        o2.Perm (handleTag r imgName (handleTag r imgName st tag).1 tag).1.layers →
        totalLayersSize o2 = totalLayersSize o1) ∧
      (∀ d v, st.layers.lookup d = some v →
        (handleTag r imgName st tag).1.layers.lookup d = some v) ∧
      (handleTag r imgName st tag).1.configSize = wrapInt64 (st.configSize + m.Config.Size) ∧
      (handleTag r imgName (handleTag r imgName st tag).1 tag).1.configSize =
        wrapInt64 ((handleTag r imgName st tag).1.configSize + m.Config.Size) ∧
      (st.configSize = 0 →
        (handleTag r imgName (handleTag r imgName st tag).1 tag).1.configSize =
          wrapInt64 (2 * m.Config.Size)) ∧
      (st.configSize = 0 → -2 ^ 63 ≤ 2 * m.Config.Size ∧ 2 * m.Config.Size < 2 ^ 63 →
        (handleTag r imgName (handleTag r imgName st tag).1 tag).1.configSize =
          2 * (handleTag r imgName st tag).1.configSize) ∧
      (-2 ^ 63 ≤ st.configSize + m.Config.Size ∧ st.configSize + m.Config.Size < 2 ^ 63 →
        (handleTag r imgName st tag).1.configSize = st.configSize + m.Config.Size ∧
        (-2 ^ 63 ≤ st.configSize + 2 * m.Config.Size ∧
            st.configSize + 2 * m.Config.Size < 2 ^ 63 →
          (handleTag r imgName (handleTag r imgName st tag).1 tag).1.configSize =
            (handleTag r imgName st tag).1.configSize + m.Config.Size)) ∧
      (∀ order : List (String × Int),
        totalSize (handleTag r imgName st tag).1.configSize order =
          wrapInt64 (totalLayersSize order + (handleTag r imgName st tag).1.configSize) ∧
        (-2 ^ 63 ≤ totalLayersSize order + (handleTag r imgName st tag).1.configSize ∧
            totalLayersSize order + (handleTag r imgName st tag).1.configSize < 2 ^ 63 →
          totalSize (handleTag r imgName st tag).1.configSize order =
            totalLayersSize order + (handleTag r imgName st tag).1.configSize)) := by
  have hone : (handleTag r imgName st tag).1 =
      { configSize := wrapInt64 (st.configSize + m.Config.Size),
        layers := layerLoop m.Layers st.layers } := by
    simp [handleTag, hm]
  have htwo : (handleTag r imgName (handleTag r imgName st tag).1 tag).1 =
      { configSize := wrapInt64 (wrapInt64 (st.configSize + m.Config.Size) + m.Config.Size),
        layers := layerLoop m.Layers st.layers } := by
    rw [hone]
    simp [handleTag, hm, layerLoop_idem]
  rw [htwo, hone]
  refine ⟨rfl, ?_, ?_, rfl, rfl, ?_, ?_, ?_, fun order => ⟨rfl, ?_⟩⟩
  · intro o1 o2 h1 h2
    exact totalLayersSize_perm o2 o1 (h2.trans h1.symm)
  · intro d v hv
    exact layerLoop_keeps d v m.Layers st.layers hv
  · intro h0
    simp only [h0, wrapInt64_add_left]
    congr 1
    omega
  · intro h0 hr
    simp only [h0, wrapInt64_add_left]
    unfold wrapInt64
    omega
  · intro h1
    refine ⟨wrapInt64_of_inRange _ h1, fun h2 => ?_⟩
    simp only [wrapInt64_add_left]
    rw [wrapInt64_of_inRange _ h1, wrapInt64_of_inRange _ (by omega)]
  · intro hr
    exact wrapInt64_of_inRange _ hr

/-- Witness for C10: the sample manifest processed twice from the fresh state. -/
theorem handleTag_twice_witness :
    ((handleTag sampleRegistry "img" (handleTag sampleRegistry "img" ⟨0, []⟩ "v1").1 "v1").1.layers =
        (handleTag sampleRegistry "img" ⟨0, []⟩ "v1").1.layers) ∧
      (handleTag sampleRegistry "img" (handleTag sampleRegistry "img" ⟨0, []⟩ "v1").1
          "v1").1.configSize =
        2 * (handleTag sampleRegistry "img" ⟨0, []⟩ "v1").1.configSize :=
  ⟨(handleTag_twice sampleRegistry "img" "v1" sampleManifest ⟨0, []⟩ rfl).1,
    (handleTag_twice sampleRegistry "img" "v1" sampleManifest ⟨0, []⟩ rfl).2.2.2.2.2.2.1 rfl
      (by decide)⟩

end NexusCli
